import Mathlib

/-!
Verification of the modbus master-side client (ASCII framing variant and
request orchestrator) against its natural-language specification.

The Go source is shallowly embedded: bytes are `Nat` with explicit `% 256`
(resp. `% 65536`) where the machine types wrap, byte slices are `List Nat`,
fallible operations return `Except` or an explicit outcome type, and the
packager/transport exchange driven by `ClientHandler.transceive` is an
explicit oracle parameter recording the transport calls it makes.
-/

set_option maxRecDepth 4096

namespace Modbus

/-- `ProtocolDataUnit` from the source: a function code byte and a data
byte sequence. -/
structure ProtocolDataUnit where
  functionCode : Nat
  data : List Nat
deriving DecidableEq, Repr

/-- Function code constants, as given in the per-operation doc comments of
the client handler source (`0x01`, `0x02`, `0x05`, `0x0F`, `0x03`, `0x04`,
`0x06`, `0x10`, `0x16`, `0x17`, `0x18`). -/
def FuncCodeReadCoils : Nat := 1
def FuncCodeReadDiscreteInputs : Nat := 2
def FuncCodeWriteSingleCoil : Nat := 5
def FuncCodeWriteMultipleCoils : Nat := 15
def FuncCodeReadHoldingRegisters : Nat := 3
def FuncCodeReadInputRegisters : Nat := 4
def FuncCodeWriteSingleRegister : Nat := 6
def FuncCodeWriteMultipleRegisters : Nat := 16
def FuncCodeMaskWriteRegister : Nat := 22
def FuncCodeReadWriteMultipleRegisters : Nat := 23
def FuncCodeReadFIFOQueue : Nat := 24

/-! ## Longitudinal redundancy check (`lrc` in the source)

The source accumulator is a single `uint8` field `sum`; `reset` zeroes it,
`pushByte` adds one byte with 8-bit wraparound, `pushBytes` folds a byte
sequence, and `value` returns `uint8(-int8(sum))`, the two's complement of
the running sum. -/

/-- `lrc.reset`: the accumulator starts at 0. -/
def lrcReset : Nat := 0

/-- `lrc.pushByte`: `sum += b` on a `uint8` accumulator. -/
def lrcPushByte (sum b : Nat) : Nat := (sum + b) % 256

/-- `lrc.pushBytes`: fold `pushByte` over a byte sequence. -/
def lrcPushBytes (sum : Nat) (data : List Nat) : Nat :=
  data.foldl lrcPushByte sum

/-- `lrc.value`: `uint8(-int8(sum))`, the two's-complement negation of the
8-bit running sum. -/
def lrcValue (sum : Nat) : Nat := (256 - sum % 256) % 256

/-- One call against the lrc accumulator: either a single-byte push or a
bulk push, so that any split of `pushByte`/`pushBytes` calls can be
described. -/
inductive LrcPush where
  | one (b : Nat)
  | many (bs : List Nat)
deriving DecidableEq, Repr

/-- Run a sequence of push calls after `reset`. -/
def lrcRun (calls : List LrcPush) : Nat :=
  calls.foldl
    (fun sum c =>
      match c with
      | .one b => lrcPushByte sum b
      | .many bs => lrcPushBytes sum bs)
    lrcReset

/-- The number of byte-units a push call contributes to the plain sum. -/
def lrcPushTotal (c : LrcPush) : Nat :=
  match c with
  | .one b => b
  | .many bs => bs.sum

/-! ## Hex helpers (`writeHex`, `readHex`, `encoding/hex`) -/

/-- The `hexTable` constant: the character codes of `0123456789ABCDEF`. -/
def hexTable : List Nat :=
  [48, 49, 50, 51, 52, 53, 54, 55, 56, 57, 65, 66, 67, 68, 69, 70]

/-- `writeHex` body for one byte: emit `hexTable[v>>4]` then
`hexTable[v&0x0F]`. -/
def writeHexByte (v : Nat) : List Nat :=
  [hexTable.getD (v / 16) 0, hexTable.getD (v % 16) 0]

/-- `writeHex` over a byte sequence. -/
def writeHexBytes (value : List Nat) : List Nat :=
  value.flatMap writeHexByte

/-- One hex digit as decoded by Go `encoding/hex` (`0-9`, `a-f`, `A-F`). -/
def decodeHexChar (c : Nat) : Option Nat :=
  if 48 ≤ c ∧ c ≤ 57 then some (c - 48)
  else if 97 ≤ c ∧ c ≤ 102 then some (c - 87)
  else if 65 ≤ c ∧ c ≤ 70 then some (c - 55)
  else none

/-- `readHex`: decode the first two hex characters into one byte
(`hex.Decode` of a 2-character slice). `none` models the error return. -/
def readHex (data : List Nat) : Option Nat :=
  match data with
  | a :: b :: _ =>
    match decodeHexChar a, decodeHexChar b with
    | some hi, some lo => some (16 * hi + lo)
    | _, _ => none
  | _ => none

/-- `hex.Decode` over a whole buffer: decode consecutive character pairs;
an invalid character or an odd-length buffer is an error (`none`). -/
def hexDecodePairs (src : List Nat) : Option (List Nat) :=
  match src with
  | [] => some []
  | [_] => none
  | a :: b :: rest =>
    match decodeHexChar a, decodeHexChar b, hexDecodePairs rest with
    | some hi, some lo, some tail => some ((16 * hi + lo) :: tail)
    | _, _, _ => none

/-- Go slice `l[a:b]` (on the in-range domain exercised here). -/
def goSlice (l : List Nat) (a b : Nat) : List Nat := (l.take b).drop a

/-! ## ASCII packager -/

/-- Frame marker bytes: `asciiStart` is the colon, `asciiEnd` is CR LF. -/
def asciiStart : List Nat := [58]
def asciiEnd : List Nat := [13, 10]

/-- `ASCIIPackager.Encode`: colon, hex of slave id and function code, hex
of the data, hex of the LRC over id+function+data, CR LF. -/
def ASCIIPackager.Encode (slaveID : Nat) (pdu : ProtocolDataUnit) : List Nat :=
  asciiStart
    ++ writeHexBytes [slaveID, pdu.functionCode]
    ++ writeHexBytes pdu.data
    ++ writeHexBytes
        [lrcValue (lrcPushBytes (lrcPushByte (lrcPushByte lrcReset slaveID) pdu.functionCode) pdu.data)]
    ++ asciiEnd

/-- Decode-side errors of the ASCII packager. -/
inductive ASCIIDecodeError where
  | hexError
  | lrcMismatch (got expected : Nat)
deriving DecidableEq, Repr

/-- `ASCIIPackager.Decode`: hex-decode slave address (`adu[1:]`), function
code (`adu[3:]`), the data characters `adu[5:len-4]`, and the LRC
characters `adu[len-4:]`; recompute the LRC over address, function code
and data and compare. -/
def ASCIIPackager.Decode (adu : List Nat) : Except ASCIIDecodeError ProtocolDataUnit :=
  match readHex (adu.drop 1) with
  | none => .error .hexError
  | some address =>
    match readHex (adu.drop 3) with
    | none => .error .hexError
    | some functionCode =>
      let dataEnd := adu.length - 4
      match hexDecodePairs (goSlice adu 5 dataEnd) with
      | none => .error .hexError
      | some data =>
        match readHex (adu.drop dataEnd) with
        | none => .error .hexError
        | some lrcVal =>
          let expected :=
            lrcValue (lrcPushBytes (lrcPushByte (lrcPushByte lrcReset address) functionCode) data)
          if lrcVal ≠ expected then .error (.lrcMismatch lrcVal expected)
          else .ok ⟨functionCode, data⟩

/-! ## Client handler (request orchestrator)

`ClientHandler.transceive` encodes the request, drives the packager's
exchange against the transporter, verifies and decodes the response, then
applies the function-code and empty-payload checks.  The whole
encode/exchange/verify/decode pipeline is modelled as an oracle
(`Transceiver`) that also reports the transport calls (`Connect`/`Write`/
`Read`) it performed; the orchestrator-level checks on the decoded
response are embedded literally below. -/

/-- A transport-layer call made during one exchange. -/
inductive TransportCall where
  | connect
  | write
  | read
deriving DecidableEq, Repr

/-- Errors produced by the client handler and its helpers, one constructor
per `fmt.Errorf` site (carrying the values interpolated into the message);
`external` stands for any error produced inside the packager/transport
exchange (encode, I/O, verify, decode). -/
inductive ModError where
  | modbusError (functionCode exceptionCode : Nat)
  | quantityRange (value lo hi : Nat)
  | dataSizeMismatch (size count : Nat)
  | dataSizeExpect (size expected : Nat)
  | dataSizeLess (size expected : Nat)
  | addressMismatch (got expected : Nat)
  | valueMismatch (got expected : Nat)
  | quantityMismatch (got expected : Nat)
  | fifoCountExceeded (count hi : Nat)
  | emptyResponse
  | lengthExceedsCapacity (l : Nat)
  | external (code : Nat)
deriving DecidableEq, Repr

/-- The packager/transport exchange pipeline (`Packager.Encode`,
`Packager.transceive`, `Packager.Verify`, `Packager.Decode`) as one
oracle: it maps the request PDU to either a decoded response PDU or an
error, together with the list of transport calls it made. -/
def Transceiver : Type := ProtocolDataUnit → Except ModError ProtocolDataUnit × List TransportCall

/-- Outcome of one client operation as observed by the caller: a value, a
returned error, or a Go runtime panic (out-of-range slice index). -/
inductive GoOutcome (α : Type) where
  | ok (a : α)
  | err (e : ModError)
  | panicked
deriving DecidableEq, Repr

/-- `responseError`: build a `ModbusError` from the response, taking the
exception code from the first payload byte when the payload is
non-empty (otherwise the zero value is kept). -/
def responseError (response : ProtocolDataUnit) : ModError :=
  .modbusError response.functionCode
    (match response.data with
     | [] => 0
     | b :: _ => b)

/-- `ClientHandler.transceive`: run the exchange, then reject a response
whose function code differs from the request's as a device exception
(`responseError`), and reject an empty response payload. -/
def ClientHandler.transceive (t : Transceiver) (request : ProtocolDataUnit) :
    Except ModError ProtocolDataUnit × List TransportCall :=
  match t request with
  | (.error e, calls) => (.error e, calls)
  | (.ok response, calls) =>
    if response.functionCode ≠ request.functionCode then
      (.error (responseError response), calls)
    else if response.data.isEmpty then
      (.error .emptyResponse, calls)
    else
      (.ok response, calls)

/-- `dataBlock`: big-endian 16-bit serialization of each value
(`binary.BigEndian.PutUint16`). -/
def dataBlock (value : List Nat) : List Nat :=
  value.flatMap (fun v => [v / 256 % 256, v % 256])

/-- `dataBlockSuffix`: the big-endian values, then the suffix length as
one byte (`uint8(len(suffix))`), then the suffix. -/
def dataBlockSuffix (suffix : List Nat) (value : List Nat) : List Nat :=
  dataBlock value ++ [suffix.length % 256] ++ suffix

/-- `binary.BigEndian.Uint16` of the first two bytes. -/
def bigEndianUint16 (b : List Nat) : Nat :=
  b.getD 0 0 * 256 + b.getD 1 0

/-- One response byte unpacked LSB-first into eight booleans
(`result[i] & (1 << j) != 0` for `j = 0..7`). -/
def byteToBits (b : Nat) : List Bool :=
  (List.range 8).map (fun j => b.testBit j)

/-- `bytesToWordArray`: `ceil(l/2)` words; word `i` is the big-endian pair
`bytes[2i], bytes[2i+1]`, except that a trailing unpaired byte becomes a
word by plain widening (`uint16(bytes[j])`). -/
def bytesToWordArray (bytes : List Nat) : List Nat :=
  (List.range ((bytes.length + 1) / 2)).map
    (fun i =>
      if 2 * i + 2 > bytes.length then bytes.getD (2 * i) 0
      else bytes.getD (2 * i) 0 * 256 + bytes.getD (2 * i + 1) 0)

/-- `wordsToByteArray`: each word big-endian into two bytes. -/
def wordsToByteArray (words : List Nat) : List Nat :=
  words.flatMap (fun v => [v / 256 % 256, v % 256])

/-- `filterNullChar`: keep exactly the non-zero bytes. -/
def filterNullChar (a : List Nat) : List Nat :=
  a.filter (fun c => c != 0)

/-- `ClientHandler.ReadCoils` (function code 0x01): check the quantity
range, exchange, check the leading byte count against the remaining
payload length, unpack the bits LSB-first, and slice to the requested
quantity (`coils[0:quantity]` panics when `quantity` exceeds the unpacked
length). -/
def ClientHandler.ReadCoils (t : Transceiver) (address quantity : Nat) :
    GoOutcome (List Bool) × List TransportCall :=
  if quantity < 1 ∨ 2000 < quantity then
    (.err (.quantityRange quantity 1 2000), [])
  else
    match ClientHandler.transceive t ⟨FuncCodeReadCoils, dataBlock [address, quantity]⟩ with
    | (.error e, calls) => (.err e, calls)
    | (.ok response, calls) =>
      match response.data with
      | [] => (.panicked, calls)
      | byteCount :: coilStates =>
        if byteCount ≠ coilStates.length then
          (.err (.dataSizeMismatch coilStates.length byteCount), calls)
        else
          let coils := coilStates.flatMap byteToBits
          if quantity ≤ coils.length then (.ok (coils.take quantity), calls)
          else (.panicked, calls)

/-- `ClientHandler.ReadDiscreteInputs` (function code 0x02): identical
shape to `ReadCoils`. -/
def ClientHandler.ReadDiscreteInputs (t : Transceiver) (address quantity : Nat) :
    GoOutcome (List Bool) × List TransportCall :=
  if quantity < 1 ∨ 2000 < quantity then
    (.err (.quantityRange quantity 1 2000), [])
  else
    match ClientHandler.transceive t ⟨FuncCodeReadDiscreteInputs, dataBlock [address, quantity]⟩ with
    | (.error e, calls) => (.err e, calls)
    | (.ok response, calls) =>
      match response.data with
      | [] => (.panicked, calls)
      | byteCount :: inputStates =>
        if byteCount ≠ inputStates.length then
          (.err (.dataSizeMismatch inputStates.length byteCount), calls)
        else
          let inputs := inputStates.flatMap byteToBits
          if quantity ≤ inputs.length then (.ok (inputs.take quantity), calls)
          else (.panicked, calls)

/-- `ClientHandler.ReadHoldingRegisters` (function code 0x03). -/
def ClientHandler.ReadHoldingRegisters (t : Transceiver) (address quantity : Nat) :
    GoOutcome (List Nat) × List TransportCall :=
  if quantity < 1 ∨ 125 < quantity then
    (.err (.quantityRange quantity 1 125), [])
  else
    match ClientHandler.transceive t ⟨FuncCodeReadHoldingRegisters, dataBlock [address, quantity]⟩ with
    | (.error e, calls) => (.err e, calls)
    | (.ok response, calls) =>
      match response.data with
      | [] => (.panicked, calls)
      | count :: rest =>
        if count ≠ rest.length then
          (.err (.dataSizeMismatch rest.length count), calls)
        else
          (.ok (bytesToWordArray rest), calls)

/-- `ClientHandler.ReadInputRegisters` (function code 0x04). -/
def ClientHandler.ReadInputRegisters (t : Transceiver) (address quantity : Nat) :
    GoOutcome (List Nat) × List TransportCall :=
  if quantity < 1 ∨ 125 < quantity then
    (.err (.quantityRange quantity 1 125), [])
  else
    match ClientHandler.transceive t ⟨FuncCodeReadInputRegisters, dataBlock [address, quantity]⟩ with
    | (.error e, calls) => (.err e, calls)
    | (.ok response, calls) =>
      match response.data with
      | [] => (.panicked, calls)
      | count :: rest =>
        if count ≠ rest.length then
          (.err (.dataSizeMismatch rest.length count), calls)
        else
          (.ok (bytesToWordArray rest), calls)

/-- The ON/OFF encoding of `WriteSingleCoil`: `0xFF00` for true, `0x0000`
for false. -/
def writeSingleCoilValue (coil : Bool) : Nat := if coil then 65280 else 0

/-- `ClientHandler.WriteSingleCoil` (function code 0x05): send address and
ON/OFF value, require a 4-byte response echoing the address and the
value. -/
def ClientHandler.WriteSingleCoil (t : Transceiver) (address : Nat) (coil : Bool) :
    GoOutcome Unit × List TransportCall :=
  let value := writeSingleCoilValue coil
  match ClientHandler.transceive t ⟨FuncCodeWriteSingleCoil, dataBlock [address, value]⟩ with
  | (.error e, calls) => (.err e, calls)
  | (.ok response, calls) =>
    if response.data.length ≠ 4 then
      (.err (.dataSizeExpect response.data.length 4), calls)
    else
      let respAddr := bigEndianUint16 response.data
      if address ≠ respAddr then
        (.err (.addressMismatch respAddr address), calls)
      else
        let respValue := bigEndianUint16 (response.data.drop 2)
        if value ≠ respValue then
          (.err (.valueMismatch respValue value), calls)
        else
          (.ok (), calls)

/-- The coil bit-packing of `WriteMultipleCoils`: byte `k` has bit `j` set
exactly when coil `8k + j` is true. -/
def packCoilBytes (coils : List Bool) (byteCount : Nat) : List Nat :=
  (List.range byteCount).map
    (fun k =>
      (List.range 8).foldl
        (fun acc j => if coils.getD (8 * k + j) false then acc + 2 ^ j else acc) 0)

/-- `ClientHandler.WriteMultipleCoils` (function code 0x0F): check the
count range, pack the coils LSB-first into `(quantity+7)/8` bytes, send
address/quantity/byte-count/bytes, require a 4-byte response echoing the
address and the quantity. -/
def ClientHandler.WriteMultipleCoils (t : Transceiver) (address : Nat) (coils : List Bool) :
    GoOutcome Unit × List TransportCall :=
  let count := coils.length
  if count < 1 ∨ 1968 < count then
    (.err (.quantityRange count 1 1968), [])
  else
    let quantity := count
    let value := packCoilBytes coils ((quantity + 7) / 8)
    match ClientHandler.transceive t
        ⟨FuncCodeWriteMultipleCoils, dataBlockSuffix value [address, quantity]⟩ with
    | (.error e, calls) => (.err e, calls)
    | (.ok response, calls) =>
      if response.data.length ≠ 4 then
        (.err (.dataSizeExpect response.data.length 4), calls)
      else
        let respAddr := bigEndianUint16 response.data
        if address ≠ respAddr then
          (.err (.addressMismatch respAddr address), calls)
        else
          let respValue := bigEndianUint16 (response.data.drop 2)
          if quantity ≠ respValue then
            (.err (.quantityMismatch respValue quantity), calls)
          else
            (.ok (), calls)

/-- `ClientHandler.WriteMultipleRegisters` (function code 0x10). -/
def ClientHandler.WriteMultipleRegisters (t : Transceiver) (address : Nat) (values : List Nat) :
    GoOutcome Unit × List TransportCall :=
  let count := values.length
  if count < 1 ∨ 123 < count then
    (.err (.quantityRange count 1 123), [])
  else
    let quantity := count
    match ClientHandler.transceive t
        ⟨FuncCodeWriteMultipleRegisters, dataBlockSuffix (dataBlock values) [address, quantity]⟩ with
    | (.error e, calls) => (.err e, calls)
    | (.ok response, calls) =>
      if response.data.length ≠ 4 then
        (.err (.dataSizeExpect response.data.length 4), calls)
      else
        let respAddr := bigEndianUint16 response.data
        if address ≠ respAddr then
          (.err (.addressMismatch respAddr address), calls)
        else
          let respValue := bigEndianUint16 (response.data.drop 2)
          if quantity ≠ respValue then
            (.err (.quantityMismatch respValue quantity), calls)
          else
            (.ok (), calls)

/-- `ClientHandler.ReadWriteMultipleRegisters` (function code 0x17). -/
def ClientHandler.ReadWriteMultipleRegisters (t : Transceiver)
    (readAddress readQuantity writeAddress writeQuantity : Nat) (value : List Nat) :
    GoOutcome (List Nat) × List TransportCall :=
  if readQuantity < 1 ∨ 125 < readQuantity then
    (.err (.quantityRange readQuantity 1 125), [])
  else if writeQuantity < 1 ∨ 121 < writeQuantity then
    (.err (.quantityRange writeQuantity 1 121), [])
  else
    match ClientHandler.transceive t
        ⟨FuncCodeReadWriteMultipleRegisters,
         dataBlockSuffix value [readAddress, readQuantity, writeAddress, writeQuantity]⟩ with
    | (.error e, calls) => (.err e, calls)
    | (.ok response, calls) =>
      match response.data with
      | [] => (.panicked, calls)
      | count :: rest =>
        if count ≠ rest.length then
          (.err (.dataSizeMismatch rest.length count), calls)
        else
          (.ok (bytesToWordArray rest), calls)

/-- `ClientHandler.ReadFIFOQueue` (function code 0x18): require at least 4
payload bytes, require the leading big-endian 16-bit count to equal the
payload length minus one, reject a FIFO count above 31, and return the
remaining bytes as words. -/
def ClientHandler.ReadFIFOQueue (t : Transceiver) (address : Nat) :
    GoOutcome (List Nat) × List TransportCall :=
  match ClientHandler.transceive t ⟨FuncCodeReadFIFOQueue, dataBlock [address]⟩ with
  | (.error e, calls) => (.err e, calls)
  | (.ok response, calls) =>
    if response.data.length < 4 then
      (.err (.dataSizeLess response.data.length 4), calls)
    else
      let count := bigEndianUint16 response.data
      if count ≠ response.data.length - 1 then
        (.err (.dataSizeMismatch (response.data.length - 1) count), calls)
      else
        let fifoCount := bigEndianUint16 (response.data.drop 2)
        if 31 < fifoCount then
          (.err (.fifoCountExceeded fifoCount 31), calls)
        else
          (.ok (bytesToWordArray (response.data.drop 4)), calls)

/-! ## Addressable-object views (register blocks and text-over-registers) -/

/-- `rwRegisters.Read`: a holding-register block read over the view's
address and count. -/
def rwRegisters.Read (t : Transceiver) (address count : Nat) :
    GoOutcome (List Nat) × List TransportCall :=
  ClientHandler.ReadHoldingRegisters t address count

/-- `roRegisters.Read`: an input-register block read over the view's
address and count. -/
def roRegisters.Read (t : Transceiver) (address count : Nat) :
    GoOutcome (List Nat) × List TransportCall :=
  ClientHandler.ReadInputRegisters t address count

/-- `rwRegisters.ReadString`: read the block, reinterpret the words as
big-endian bytes, and drop the null bytes (`filterNullChar`). -/
def rwRegisters.ReadString (t : Transceiver) (address count : Nat) :
    GoOutcome (List Nat) × List TransportCall :=
  match rwRegisters.Read t address count with
  | (.ok words, calls) => (.ok (filterNullChar (wordsToByteArray words)), calls)
  | (.err e, calls) => (.err e, calls)
  | (.panicked, calls) => (.panicked, calls)

/-- `roRegisters.ReadString`: same over the read-only view. -/
def roRegisters.ReadString (t : Transceiver) (address count : Nat) :
    GoOutcome (List Nat) × List TransportCall :=
  match roRegisters.Read t address count with
  | (.ok words, calls) => (.ok (filterNullChar (wordsToByteArray words)), calls)
  | (.err e, calls) => (.err e, calls)
  | (.panicked, calls) => (.panicked, calls)

/-- `rwRegisters.Write`: reject locally when the word count exceeds the
view's declared capacity, else write the block. -/
def rwRegisters.Write (t : Transceiver) (address count : Nat) (values : List Nat) :
    GoOutcome Unit × List TransportCall :=
  if count < values.length then
    (.err (.lengthExceedsCapacity values.length), [])
  else
    ClientHandler.WriteMultipleRegisters t address values

/-- `rwRegisters.WriteString`: pack the byte string into words with
`bytesToWordArray` and write them. -/
def rwRegisters.WriteString (t : Transceiver) (address count : Nat) (s : List Nat) :
    GoOutcome Unit × List TransportCall :=
  rwRegisters.Write t address count (bytesToWordArray s)

/-! ## Lemmas about the lrc accumulator -/

theorem lrcPushBytes_mod (bs : List Nat) :
    ∀ s : Nat, lrcPushBytes s bs % 256 = (s + bs.sum) % 256 := by
  induction bs with
  | nil => intro s; simp [lrcPushBytes]
  | cons b rest ih =>
    intro s
    have h1 : lrcPushBytes s (b :: rest) = lrcPushBytes (lrcPushByte s b) rest := rfl
    rw [h1, ih]
    simp only [lrcPushByte, List.sum_cons]
    conv_rhs => rw [← Nat.add_assoc]
    omega

theorem lrcRun_mod (calls : List LrcPush) :
    ∀ s : Nat,
      (calls.foldl
        (fun sum c =>
          match c with
          | .one b => lrcPushByte sum b
          | .many bs => lrcPushBytes sum bs) s) % 256
      = (s + (calls.map lrcPushTotal).sum) % 256 := by
  induction calls with
  | nil => intro s; simp
  | cons c rest ih =>
    intro s
    cases c with
    | one b =>
      simp only [List.foldl_cons, List.map_cons, List.sum_cons, lrcPushTotal]
      rw [ih]
      simp only [lrcPushByte]
      omega
    | many bs =>
      simp only [List.foldl_cons, List.map_cons, List.sum_cons, lrcPushTotal]
      rw [ih]
      have h := lrcPushBytes_mod bs s
      omega

/-- C3: every split of `pushByte`/`pushBytes` calls after `reset` yields,
through `value`, the two's-complement negation (truncated to 8 bits) of
the plain sum of all folded bytes; on the example bytes
`[0x02, 0x02, 0x00, 0x6B, 0x00, 0x03]` the value is `0x8E`. -/
theorem claim_C3 :
    (∀ calls : List LrcPush,
      lrcValue (lrcRun calls) = (256 - (calls.map lrcPushTotal).sum % 256) % 256)
    ∧ lrcValue (lrcPushBytes lrcReset [2, 2, 0, 107, 0, 3]) = 142 := by
  constructor
  · intro calls
    have h := lrcRun_mod calls 0
    simp only [Nat.zero_add] at h
    simp only [lrcRun, lrcReset, lrcValue]
    omega
  · decide

/-! ## C1: exception classification in `ClientHandler.transceive` -/

/-- Exchange oracle returning a decoded response whose function code 131
differs from the request's, with exception payload byte 2. -/
def oracleC1 : Transceiver :=
  fun _ => (Except.ok ⟨131, [2]⟩, [.connect, .write, .read])

/-- C1 (amended): when the decoded response's function code differs from
the request's and the response payload is non-empty, `transceive` returns
a `ModbusError` carrying the *response's* function code (the code
reported back by the device) and the first payload byte as the exception
code. -/
theorem claim_C1 (t : Transceiver) (request response : ProtocolDataUnit)
    (b : Nat) (rest : List Nat) (calls : List TransportCall)
    (hex : t request = (.ok response, calls))
    (hfc : response.functionCode ≠ request.functionCode)
    (hdata : response.data = b :: rest) :
    ClientHandler.transceive t request
      = (.error (.modbusError response.functionCode b), calls) := by
  simp only [ClientHandler.transceive, hex, if_pos hfc, responseError, hdata]

theorem claim_C1_witness :
    ClientHandler.transceive oracleC1 ⟨3, [0, 10, 0, 1]⟩
      = (.error (.modbusError 131 2), [.connect, .write, .read]) :=
  claim_C1 oracleC1 ⟨3, [0, 10, 0, 1]⟩ ⟨131, [2]⟩ 2 []
    [.connect, .write, .read] rfl (by decide) rfl

/-- C1 counterexample: for a request with function code 3 answered by a
decoded response with function code 131 and payload `[2]`, the returned
`ModbusError` carries function code 131, not the request's original
function code 3 as the claim states. -/
theorem claim_C1_counterexample :
    ClientHandler.transceive oracleC1 ⟨3, [0, 10, 0, 1]⟩
      = (.error (.modbusError 131 2), [.connect, .write, .read])
    ∧ (131 : Nat) ≠ 3 := by
  constructor
  · rfl
  · decide

/-! ## C4: argument-range validation before any transport activity -/

/-- A stub exchange oracle (never reached by the validation theorems). -/
def oracleStub : Transceiver := fun _ => (.error (.external 0), [.connect])

/-- C4: every operation with a documented quantity limit rejects an
out-of-range quantity with an argument-range error and performs zero
transport calls: the exchange oracle is never invoked, so the recorded
transport-call list is empty. -/
theorem claim_C4 :
    (∀ (t : Transceiver) (address quantity : Nat), quantity < 1 ∨ 2000 < quantity →
      ClientHandler.ReadCoils t address quantity = (.err (.quantityRange quantity 1 2000), []))
    ∧ (∀ (t : Transceiver) (address quantity : Nat), quantity < 1 ∨ 2000 < quantity →
      ClientHandler.ReadDiscreteInputs t address quantity
        = (.err (.quantityRange quantity 1 2000), []))
    ∧ (∀ (t : Transceiver) (address quantity : Nat), quantity < 1 ∨ 125 < quantity →
      ClientHandler.ReadHoldingRegisters t address quantity
        = (.err (.quantityRange quantity 1 125), []))
    ∧ (∀ (t : Transceiver) (address quantity : Nat), quantity < 1 ∨ 125 < quantity →
      ClientHandler.ReadInputRegisters t address quantity
        = (.err (.quantityRange quantity 1 125), []))
    ∧ (∀ (t : Transceiver) (address : Nat) (coils : List Bool),
        coils.length < 1 ∨ 1968 < coils.length →
      ClientHandler.WriteMultipleCoils t address coils
        = (.err (.quantityRange coils.length 1 1968), []))
    ∧ (∀ (t : Transceiver) (address : Nat) (values : List Nat),
        values.length < 1 ∨ 123 < values.length →
      ClientHandler.WriteMultipleRegisters t address values
        = (.err (.quantityRange values.length 1 123), []))
    ∧ (∀ (t : Transceiver) (ra rq wa wq : Nat) (value : List Nat), rq < 1 ∨ 125 < rq →
      ClientHandler.ReadWriteMultipleRegisters t ra rq wa wq value
        = (.err (.quantityRange rq 1 125), []))
    ∧ (∀ (t : Transceiver) (ra rq wa wq : Nat) (value : List Nat),
        1 ≤ rq → rq ≤ 125 → wq < 1 ∨ 121 < wq →
      ClientHandler.ReadWriteMultipleRegisters t ra rq wa wq value
        = (.err (.quantityRange wq 1 121), [])) := by
  refine ⟨?_, ?_, ?_, ?_, ?_, ?_, ?_, ?_⟩
  · intro t address quantity h
    simp only [ClientHandler.ReadCoils, if_pos h]
  · intro t address quantity h
    simp only [ClientHandler.ReadDiscreteInputs, if_pos h]
  · intro t address quantity h
    simp only [ClientHandler.ReadHoldingRegisters, if_pos h]
  · intro t address quantity h
    simp only [ClientHandler.ReadInputRegisters, if_pos h]
  · intro t address coils h
    simp only [ClientHandler.WriteMultipleCoils, if_pos h]
  · intro t address values h
    simp only [ClientHandler.WriteMultipleRegisters, if_pos h]
  · intro t ra rq wa wq value h
    simp only [ClientHandler.ReadWriteMultipleRegisters, if_pos h]
  · intro t ra rq wa wq value h1 h2 h
    rw [ClientHandler.ReadWriteMultipleRegisters, if_neg (by omega), if_pos h]

theorem claim_C4_witness :
    ClientHandler.ReadCoils oracleStub 7 0 = (.err (.quantityRange 0 1 2000), [])
    ∧ ClientHandler.ReadCoils oracleStub 7 2001 = (.err (.quantityRange 2001 1 2000), [])
    ∧ ClientHandler.ReadDiscreteInputs oracleStub 7 0 = (.err (.quantityRange 0 1 2000), [])
    ∧ ClientHandler.ReadHoldingRegisters oracleStub 7 0 = (.err (.quantityRange 0 1 125), [])
    ∧ ClientHandler.ReadHoldingRegisters oracleStub 7 126 = (.err (.quantityRange 126 1 125), [])
    ∧ ClientHandler.ReadInputRegisters oracleStub 7 126 = (.err (.quantityRange 126 1 125), [])
    ∧ ClientHandler.WriteMultipleCoils oracleStub 7 [] = (.err (.quantityRange 0 1 1968), [])
    ∧ ClientHandler.WriteMultipleRegisters oracleStub 7 (List.replicate 124 0)
        = (.err (.quantityRange 124 1 123), [])
    ∧ ClientHandler.ReadWriteMultipleRegisters oracleStub 7 126 9 1 []
        = (.err (.quantityRange 126 1 125), [])
    ∧ ClientHandler.ReadWriteMultipleRegisters oracleStub 7 10 9 122 []
        = (.err (.quantityRange 122 1 121), []) :=
  ⟨claim_C4.1 oracleStub 7 0 (by decide),
   claim_C4.1 oracleStub 7 2001 (by decide),
   claim_C4.2.1 oracleStub 7 0 (by decide),
   claim_C4.2.2.1 oracleStub 7 0 (by decide),
   claim_C4.2.2.1 oracleStub 7 126 (by decide),
   claim_C4.2.2.2.1 oracleStub 7 126 (by decide),
   claim_C4.2.2.2.2.1 oracleStub 7 [] (by decide),
   by
     have h := claim_C4.2.2.2.2.2.1 oracleStub 7 (List.replicate 124 0) (by simp)
     simpa using h,
   claim_C4.2.2.2.2.2.2.1 oracleStub 7 126 9 1 [] (by decide),
   claim_C4.2.2.2.2.2.2.2 oracleStub 7 10 9 122 [] (by decide) (by decide) (by decide)⟩

/-! ## Reduction lemmas for `ClientHandler.transceive` -/

theorem transceive_ok (t : Transceiver) (request response : ProtocolDataUnit)
    (calls : List TransportCall)
    (hex : t request = (.ok response, calls))
    (hfc : response.functionCode = request.functionCode)
    (hne : response.data ≠ []) :
    ClientHandler.transceive t request = (.ok response, calls) := by
  simp only [ClientHandler.transceive, hex]
  rw [if_neg (by simp [hfc]), if_neg (by simpa [List.isEmpty_iff] using hne)]

theorem transceive_empty (t : Transceiver) (request response : ProtocolDataUnit)
    (calls : List TransportCall)
    (hex : t request = (.ok response, calls))
    (hfc : response.functionCode = request.functionCode)
    (hemp : response.data = []) :
    ClientHandler.transceive t request = (.error .emptyResponse, calls) := by
  simp only [ClientHandler.transceive, hex]
  rw [if_neg (by simp [hfc]), if_pos (by simp [hemp])]

/-! ## C6: `WriteSingleCoil` request layout and response echo checks -/

/-- Exchange oracle echoing the expected 4-byte payload for a
`WriteSingleCoil` request at address 172 with value ON. -/
def oracleC6 : Transceiver := fun _ => (.ok ⟨5, [0, 172, 255, 0]⟩, [.write, .read])

/-- C6: `WriteSingleCoil(address, true)` sends the big-endian address
followed by `0xFF00` (`0x0000` for false), and — given a decoded response
with the matching function code — succeeds exactly when the response
payload is 4 bytes echoing that address and that 16-bit value; a wrong
payload length, echoed address, or echoed value each yield the
corresponding framing error. -/
theorem claim_C6 :
    (∀ address : Nat, address < 65536 →
      dataBlock [address, writeSingleCoilValue true]
        = [address / 256, address % 256, 255, 0]
      ∧ dataBlock [address, writeSingleCoilValue false]
        = [address / 256, address % 256, 0, 0])
    ∧ (∀ (t : Transceiver) (address : Nat) (response : ProtocolDataUnit)
        (calls : List TransportCall),
        t ⟨FuncCodeWriteSingleCoil, dataBlock [address, writeSingleCoilValue true]⟩
          = (.ok response, calls) →
        response.functionCode = FuncCodeWriteSingleCoil →
        ((ClientHandler.WriteSingleCoil t address true).1 = .ok ()
          ↔ response.data.length = 4
            ∧ bigEndianUint16 response.data = address
            ∧ bigEndianUint16 (response.data.drop 2) = 65280))
    ∧ (∀ (t : Transceiver) (address : Nat) (response : ProtocolDataUnit)
        (calls : List TransportCall),
        t ⟨FuncCodeWriteSingleCoil, dataBlock [address, writeSingleCoilValue true]⟩
          = (.ok response, calls) →
        response.functionCode = FuncCodeWriteSingleCoil →
        response.data ≠ [] →
        response.data.length ≠ 4 →
        ClientHandler.WriteSingleCoil t address true
          = (.err (.dataSizeExpect response.data.length 4), calls))
    ∧ (∀ (t : Transceiver) (address : Nat) (response : ProtocolDataUnit)
        (calls : List TransportCall),
        t ⟨FuncCodeWriteSingleCoil, dataBlock [address, writeSingleCoilValue true]⟩
          = (.ok response, calls) →
        response.functionCode = FuncCodeWriteSingleCoil →
        response.data.length = 4 →
        bigEndianUint16 response.data ≠ address →
        ClientHandler.WriteSingleCoil t address true
          = (.err (.addressMismatch (bigEndianUint16 response.data) address), calls))
    ∧ (∀ (t : Transceiver) (address : Nat) (response : ProtocolDataUnit)
        (calls : List TransportCall),
        t ⟨FuncCodeWriteSingleCoil, dataBlock [address, writeSingleCoilValue true]⟩
          = (.ok response, calls) →
        response.functionCode = FuncCodeWriteSingleCoil →
        response.data.length = 4 →
        bigEndianUint16 response.data = address →
        bigEndianUint16 (response.data.drop 2) ≠ 65280 →
        ClientHandler.WriteSingleCoil t address true
          = (.err (.valueMismatch (bigEndianUint16 (response.data.drop 2)) 65280), calls)) := by
  refine ⟨?_, ?_, ?_, ?_, ?_⟩
  · intro address h
    have hd : address / 256 < 256 := by omega
    constructor <;>
      simp [dataBlock, writeSingleCoilValue, Nat.mod_eq_of_lt hd]
  · intro t address response calls hex hfc
    by_cases hne : response.data = []
    · simp only [ClientHandler.WriteSingleCoil,
        transceive_empty t _ response calls hex hfc hne]
      simp [hne]
    · simp only [ClientHandler.WriteSingleCoil,
        transceive_ok t _ response calls hex hfc hne]
      simp only [writeSingleCoilValue, if_true]
      by_cases h4 : response.data.length = 4
      · rw [if_neg (by omega)]
        by_cases ha : address = bigEndianUint16 response.data
        · rw [if_neg (by omega)]
          by_cases hv : (65280 : Nat) = bigEndianUint16 (response.data.drop 2)
          · rw [if_neg (by omega)]
            simp [h4, ha.symm, hv.symm]
          · rw [if_pos (by omega)]
            constructor
            · intro hc; simp at hc
            · intro hc; exact absurd hc.2.2 (by omega)
        · rw [if_pos (by omega)]
          constructor
          · intro hc; simp at hc
          · intro hc; exact absurd hc.2.1 (by omega)
      · rw [if_pos (by omega)]
        constructor
        · intro hc; simp at hc
        · intro hc; exact absurd hc.1 h4
  · intro t address response calls hex hfc hne h4
    simp only [ClientHandler.WriteSingleCoil,
      transceive_ok t _ response calls hex hfc hne]
    rw [if_pos (by omega)]
  · intro t address response calls hex hfc h4 ha
    have hne : response.data ≠ [] := by
      intro hc; rw [hc] at h4; simp at h4
    simp only [ClientHandler.WriteSingleCoil,
      transceive_ok t _ response calls hex hfc hne]
    rw [if_neg (by omega), if_pos (by omega)]
  · intro t address response calls hex hfc h4 ha hv
    have hne : response.data ≠ [] := by
      intro hc; rw [hc] at h4; simp at h4
    simp only [ClientHandler.WriteSingleCoil,
      transceive_ok t _ response calls hex hfc hne]
    simp only [writeSingleCoilValue, if_true]
    rw [if_neg (by omega), if_neg (by omega), if_pos (by omega)]

theorem claim_C6_witness :
    (dataBlock [172, writeSingleCoilValue true] = [0, 172, 255, 0])
    ∧ (172 : Nat) < 65536
    ∧ (ClientHandler.WriteSingleCoil oracleC6 172 true).1 = .ok () :=
  ⟨by have h := (claim_C6.1 172 (by decide)).1; simpa using h,
   by decide,
   (claim_C6.2.1 oracleC6 172 ⟨5, [0, 172, 255, 0]⟩ [.write, .read] rfl rfl).mpr
     (by decide)⟩

/-! ## C2: ASCII frame round-trip -/

theorem decodeHexChar_hexTable : ∀ v : Nat, v < 16 → decodeHexChar (hexTable.getD v 0) = some v := by
  decide

theorem readHex_writeHexByte (v : Nat) (h : v < 256) (rest : List Nat) :
    readHex (writeHexByte v ++ rest) = some v := by
  have h1 : v / 16 < 16 := by omega
  have h2 : v % 16 < 16 := by omega
  simp only [writeHexByte, List.cons_append, List.nil_append, readHex,
    decodeHexChar_hexTable _ h1, decodeHexChar_hexTable _ h2,
    Option.some.injEq]
  omega

theorem writeHexBytes_length (l : List Nat) : (writeHexBytes l).length = 2 * l.length := by
  induction l with
  | nil => rfl
  | cons b t ih =>
    have hc : writeHexBytes (b :: t) = writeHexByte b ++ writeHexBytes t := by
      simp [writeHexBytes]
    rw [hc, List.length_append, ih]
    simp [writeHexByte]
    omega

theorem hexDecodePairs_writeHexBytes (l : List Nat) (h : ∀ b ∈ l, b < 256) :
    hexDecodePairs (writeHexBytes l) = some l := by
  induction l with
  | nil => rfl
  | cons b t ih =>
    have hb : b < 256 := h b (by simp)
    have ht : ∀ x ∈ t, x < 256 := fun x hx => h x (by simp [hx])
    have h1 : b / 16 < 16 := by omega
    have h2 : b % 16 < 16 := by omega
    have hshape : writeHexBytes (b :: t)
        = hexTable.getD (b / 16) 0 :: hexTable.getD (b % 16) 0 :: writeHexBytes t := by
      simp [writeHexBytes, writeHexByte]
    rw [hshape]
    simp only [hexDecodePairs, decodeHexChar_hexTable _ h1,
      decodeHexChar_hexTable _ h2, ih ht, Option.some.injEq, List.cons.injEq]
    exact ⟨by omega, trivial⟩

theorem lrcValue_lt (sum : Nat) : lrcValue sum < 256 := by
  simp only [lrcValue]
  omega

/-- The decode side of the round-trip, with the transmitted checksum byte
generalized: decoding a well-formed ASCII frame recovers the function code
and data, and accepts exactly when the transmitted checksum byte matches
the recomputed one. -/
theorem ASCIIDecode_frame (s f L : Nat) (d : List Nat)
    (hs : s < 256) (hf : f < 256) (hL : L < 256) (hd : ∀ b ∈ d, b < 256) :
    ASCIIPackager.Decode
        (([58] ++ writeHexByte s ++ writeHexByte f)
          ++ (writeHexBytes d ++ (writeHexByte L ++ [13, 10])))
      = if L ≠ lrcValue (lrcPushBytes (lrcPushByte (lrcPushByte lrcReset s) f) d)
        then .error (.lrcMismatch L
          (lrcValue (lrcPushBytes (lrcPushByte (lrcPushByte lrcReset s) f) d)))
        else .ok ⟨f, d⟩ := by
  have e1 : (([58] ++ writeHexByte s ++ writeHexByte f)
        ++ (writeHexBytes d ++ (writeHexByte L ++ [13, 10]))).drop 1
      = writeHexByte s ++ (writeHexByte f ++ (writeHexBytes d ++ (writeHexByte L ++ [13, 10]))) := by
    simp [List.append_assoc]
  have e3 : (([58] ++ writeHexByte s ++ writeHexByte f)
        ++ (writeHexBytes d ++ (writeHexByte L ++ [13, 10]))).drop 3
      = writeHexByte f ++ (writeHexBytes d ++ (writeHexByte L ++ [13, 10])) := by
    rw [show ([58] ++ writeHexByte s ++ writeHexByte f)
          ++ (writeHexBytes d ++ (writeHexByte L ++ [13, 10]))
        = ([58] ++ writeHexByte s)
          ++ (writeHexByte f ++ (writeHexBytes d ++ (writeHexByte L ++ [13, 10])))
      by simp [List.append_assoc]]
    exact List.drop_left' (by simp [writeHexByte])
  have elen : (([58] ++ writeHexByte s ++ writeHexByte f)
        ++ (writeHexBytes d ++ (writeHexByte L ++ [13, 10]))).length
      = 9 + 2 * d.length := by
    simp [writeHexByte, writeHexBytes_length]
    omega
  have elen4 : (([58] ++ writeHexByte s ++ writeHexByte f)
        ++ (writeHexBytes d ++ (writeHexByte L ++ [13, 10]))).length - 4
      = 5 + 2 * d.length := by
    rw [elen]
    omega
  have e5 : goSlice
        (([58] ++ writeHexByte s ++ writeHexByte f)
          ++ (writeHexBytes d ++ (writeHexByte L ++ [13, 10])))
        5 (5 + 2 * d.length)
      = writeHexBytes d := by
    rw [goSlice, show ([58] ++ writeHexByte s ++ writeHexByte f)
          ++ (writeHexBytes d ++ (writeHexByte L ++ [13, 10]))
        = (([58] ++ writeHexByte s ++ writeHexByte f) ++ writeHexBytes d)
          ++ (writeHexByte L ++ [13, 10])
      by simp [List.append_assoc]]
    rw [List.take_left' (by simp [writeHexByte, writeHexBytes_length]; omega)]
    exact List.drop_left' (by simp [writeHexByte])
  have e6 : (([58] ++ writeHexByte s ++ writeHexByte f)
        ++ (writeHexBytes d ++ (writeHexByte L ++ [13, 10]))).drop (5 + 2 * d.length)
      = writeHexByte L ++ [13, 10] := by
    rw [show ([58] ++ writeHexByte s ++ writeHexByte f)
          ++ (writeHexBytes d ++ (writeHexByte L ++ [13, 10]))
        = (([58] ++ writeHexByte s ++ writeHexByte f) ++ writeHexBytes d)
          ++ (writeHexByte L ++ [13, 10])
      by simp [List.append_assoc]]
    exact List.drop_left' (by simp [writeHexByte, writeHexBytes_length]; omega)
  simp only [ASCIIPackager.Decode, elen4, e1, e3, e5, e6,
    readHex_writeHexByte s hs, readHex_writeHexByte f hf,
    readHex_writeHexByte L hL, hexDecodePairs_writeHexBytes d hd]

/-- C2: for the ASCII framing variant, decoding the frame produced by
encoding any slave id and any PDU with at most 252 data bytes succeeds
and returns a PDU with the same function code and the same data bytes. -/
theorem claim_C2 (slaveID : Nat) (pdu : ProtocolDataUnit)
    (hs : slaveID < 256) (hf : pdu.functionCode < 256)
    (hlen : pdu.data.length ≤ 252) (hd : ∀ b ∈ pdu.data, b < 256) :
    ASCIIPackager.Decode (ASCIIPackager.Encode slaveID pdu)
      = .ok ⟨pdu.functionCode, pdu.data⟩ := by
  obtain ⟨f, d⟩ := pdu
  have hadu : ASCIIPackager.Encode slaveID ⟨f, d⟩
      = ([58] ++ writeHexByte slaveID ++ writeHexByte f)
        ++ (writeHexBytes d
          ++ (writeHexByte
                (lrcValue (lrcPushBytes (lrcPushByte (lrcPushByte lrcReset slaveID) f) d))
              ++ [13, 10])) := by
    simp [ASCIIPackager.Encode, asciiStart, asciiEnd, writeHexBytes]
  rw [hadu, ASCIIDecode_frame slaveID f _ d hs hf (lrcValue_lt _) hd,
    if_neg (by simp)]

theorem claim_C2_witness :
    (3 : Nat) < 256 ∧ (1 : Nat) < 256
    ∧ ([0, 19, 0, 19] : List Nat).length ≤ 252
    ∧ (∀ b ∈ ([0, 19, 0, 19] : List Nat), b < 256)
    ∧ ASCIIPackager.Decode (ASCIIPackager.Encode 3 ⟨1, [0, 19, 0, 19]⟩)
        = .ok ⟨1, [0, 19, 0, 19]⟩ :=
  by
    refine ⟨by decide, by decide, by decide, by decide, ?_⟩
    exact claim_C2 3 ⟨1, [0, 19, 0, 19]⟩ (by decide) (by decide) (by decide) (by decide)

/-! ## C5 and C10: bit unpacking in `ReadCoils` / `ReadDiscreteInputs` -/

theorem flatMap_byteToBits_length (bs : List Nat) :
    (bs.flatMap byteToBits).length = 8 * bs.length := by
  induction bs with
  | nil => rfl
  | cons b t ih =>
    have hc : (b :: t).flatMap byteToBits = byteToBits b ++ t.flatMap byteToBits := by
      simp
    rw [hc, List.length_append, ih]
    simp [byteToBits]
    omega

theorem byteToBits_getD (b i : Nat) (h : i < 8) :
    (byteToBits b).getD i false = b.testBit i := by
  interval_cases i <;> rfl

theorem flatMap_byteToBits_getD (bs : List Nat) :
    ∀ i, i < 8 * bs.length →
      (bs.flatMap byteToBits).getD i false = (bs.getD (i / 8) 0).testBit (i % 8) := by
  induction bs with
  | nil => intro i h; simp at h
  | cons b t ih =>
    intro i h
    have hc : (b :: t).flatMap byteToBits = byteToBits b ++ t.flatMap byteToBits := by
      simp
    rw [hc]
    by_cases h8 : i < 8
    · rw [List.getD_append _ _ _ _ (by simp [byteToBits]; omega)]
      rw [byteToBits_getD b i h8]
      have hdiv : i / 8 = 0 := by omega
      have hmod : i % 8 = i := by omega
      rw [hdiv, hmod]
      rfl
    · have hlen8 : (byteToBits b).length = 8 := by simp [byteToBits]
      rw [List.getD_append_right _ _ _ _ (by omega)]
      rw [hlen8, ih (i - 8) (by simp at h; omega)]
      have hdiv : i / 8 = (i - 8) / 8 + 1 := by omega
      have hmod : i % 8 = (i - 8) % 8 := by omega
      rw [hdiv, hmod, List.getD_cons_succ]

/-- Exchange oracle for the C5 counterexample: a 1-byte bit field whose
byte count matches the remaining payload length. -/
def oracleC5 : Transceiver := fun _ => (.ok ⟨1, [1, 255]⟩, [])

/-- C5 (amended): for a quantity in 1..2000 and an accepted response whose
leading byte-count field equals the remaining payload length, *and whose
bit field covers the quantity (`quantity ≤ 8 * byteCount`)*, `ReadCoils`
and `ReadDiscreteInputs` return exactly `quantity` booleans, element `i`
being bit `i % 8` of payload byte `1 + i / 8` (LSB first), pad bits
discarded. -/
theorem claim_C5 :
    (∀ (t : Transceiver) (address quantity byteCount : Nat) (rest : List Nat)
        (calls : List TransportCall),
      1 ≤ quantity → quantity ≤ 2000 →
      byteCount = rest.length →
      quantity ≤ 8 * byteCount →
      t ⟨FuncCodeReadCoils, dataBlock [address, quantity]⟩
        = (.ok ⟨FuncCodeReadCoils, byteCount :: rest⟩, calls) →
      ∃ coils : List Bool,
        ClientHandler.ReadCoils t address quantity = (.ok coils, calls)
        ∧ coils.length = quantity
        ∧ ∀ i, i < quantity →
            coils.getD i false = (rest.getD (i / 8) 0).testBit (i % 8))
    ∧ (∀ (t : Transceiver) (address quantity byteCount : Nat) (rest : List Nat)
        (calls : List TransportCall),
      1 ≤ quantity → quantity ≤ 2000 →
      byteCount = rest.length →
      quantity ≤ 8 * byteCount →
      t ⟨FuncCodeReadDiscreteInputs, dataBlock [address, quantity]⟩
        = (.ok ⟨FuncCodeReadDiscreteInputs, byteCount :: rest⟩, calls) →
      ∃ inputs : List Bool,
        ClientHandler.ReadDiscreteInputs t address quantity = (.ok inputs, calls)
        ∧ inputs.length = quantity
        ∧ ∀ i, i < quantity →
            inputs.getD i false = (rest.getD (i / 8) 0).testBit (i % 8)) := by
  constructor
  · intro t address quantity byteCount rest calls hq1 hq2 hbc hcov hex
    have hne : (⟨FuncCodeReadCoils, byteCount :: rest⟩ : ProtocolDataUnit).data ≠ [] := by
      simp
    simp only [ClientHandler.ReadCoils, transceive_ok t _ _ calls hex rfl hne]
    rw [if_neg (by omega), if_neg (by omega),
      if_pos (by rw [flatMap_byteToBits_length]; omega)]
    refine ⟨(rest.flatMap byteToBits).take quantity, rfl, ?_, ?_⟩
    · rw [List.length_take, flatMap_byteToBits_length]
      omega
    · intro i hi
      rw [List.getD_eq_getElem?_getD, List.getElem?_take, if_pos hi,
        ← List.getD_eq_getElem?_getD, flatMap_byteToBits_getD rest i (by omega)]
  · intro t address quantity byteCount rest calls hq1 hq2 hbc hcov hex
    have hne : (⟨FuncCodeReadDiscreteInputs, byteCount :: rest⟩ : ProtocolDataUnit).data ≠ [] := by
      simp
    simp only [ClientHandler.ReadDiscreteInputs, transceive_ok t _ _ calls hex rfl hne]
    rw [if_neg (by omega), if_neg (by omega),
      if_pos (by rw [flatMap_byteToBits_length]; omega)]
    refine ⟨(rest.flatMap byteToBits).take quantity, rfl, ?_, ?_⟩
    · rw [List.length_take, flatMap_byteToBits_length]
      omega
    · intro i hi
      rw [List.getD_eq_getElem?_getD, List.getElem?_take, if_pos hi,
        ← List.getD_eq_getElem?_getD, flatMap_byteToBits_getD rest i (by omega)]

/-- Exchange oracle for the C5 witness: a 2-byte bit field of 16 bits. -/
def oracleC5W : Transceiver := fun _ => (.ok ⟨1, [2, 255, 16]⟩, [])

theorem claim_C5_witness :
    (1 : Nat) ≤ 13 ∧ (13 : Nat) ≤ 2000 ∧ (2 : Nat) = [255, 16].length
    ∧ (13 : Nat) ≤ 8 * 2
    ∧ ∃ coils : List Bool,
        ClientHandler.ReadCoils oracleC5W 9 13 = (.ok coils, [])
        ∧ coils.length = 13
        ∧ ∀ i, i < 13 → coils.getD i false = (([255, 16] : List Nat).getD (i / 8) 0).testBit (i % 8) :=
  ⟨by decide, by decide, by decide, by decide,
   claim_C5.1 oracleC5W 9 13 2 [255, 16] [] (by decide) (by decide) (by decide)
     (by decide) rfl⟩

/-- C5 counterexample: quantity 9 with an accepted 1-byte bit field
(byte count 1 equal to the remaining payload length 1) does not produce 9
booleans — the final slice `coils[0:9]` of the 8 unpacked bits is out of
range and the call panics. -/
theorem claim_C5_counterexample :
    (1 : Nat) ≤ 9 ∧ (9 : Nat) ≤ 2000 ∧ (1 : Nat) = [255].length
    ∧ ClientHandler.ReadCoils oracleC5 19 9 = (.panicked, []) := by
  refine ⟨by decide, by decide, by decide, ?_⟩
  rfl

/-- Exchange oracle for C10: answers a coils request (function code 1)
and a discrete-inputs request (function code 2) with a matching response
of one bit-field byte. -/
def oracleC10 : Transceiver :=
  fun request =>
    if request.functionCode = FuncCodeReadCoils then (.ok ⟨FuncCodeReadCoils, [1, 170]⟩, [.read])
    else (.ok ⟨FuncCodeReadDiscreteInputs, [1, 170]⟩, [.read])

/-- C10: `ReadCoils` and `ReadDiscreteInputs` are total only when
`quantity ≤ 8 * byteCount`: an accepted response whose byte-count field
equals the remaining payload length but covers fewer bits than the
requested quantity makes the final truncation slice out of bounds — a
panic, not a returned error. -/
theorem claim_C10 :
    (∀ (t : Transceiver) (address quantity byteCount : Nat) (rest : List Nat)
        (calls : List TransportCall),
      1 ≤ quantity → quantity ≤ 2000 →
      byteCount = rest.length →
      8 * byteCount < quantity →
      t ⟨FuncCodeReadCoils, dataBlock [address, quantity]⟩
        = (.ok ⟨FuncCodeReadCoils, byteCount :: rest⟩, calls) →
      ClientHandler.ReadCoils t address quantity = (.panicked, calls))
    ∧ (∀ (t : Transceiver) (address quantity byteCount : Nat) (rest : List Nat)
        (calls : List TransportCall),
      1 ≤ quantity → quantity ≤ 2000 →
      byteCount = rest.length →
      8 * byteCount < quantity →
      t ⟨FuncCodeReadDiscreteInputs, dataBlock [address, quantity]⟩
        = (.ok ⟨FuncCodeReadDiscreteInputs, byteCount :: rest⟩, calls) →
      ClientHandler.ReadDiscreteInputs t address quantity = (.panicked, calls)) := by
  constructor
  · intro t address quantity byteCount rest calls hq1 hq2 hbc hcov hex
    have hne : (⟨FuncCodeReadCoils, byteCount :: rest⟩ : ProtocolDataUnit).data ≠ [] := by
      simp
    simp only [ClientHandler.ReadCoils, transceive_ok t _ _ calls hex rfl hne]
    rw [if_neg (by omega), if_neg (by omega),
      if_neg (by rw [flatMap_byteToBits_length]; omega)]
  · intro t address quantity byteCount rest calls hq1 hq2 hbc hcov hex
    have hne : (⟨FuncCodeReadDiscreteInputs, byteCount :: rest⟩ : ProtocolDataUnit).data ≠ [] := by
      simp
    simp only [ClientHandler.ReadDiscreteInputs, transceive_ok t _ _ calls hex rfl hne]
    rw [if_neg (by omega), if_neg (by omega),
      if_neg (by rw [flatMap_byteToBits_length]; omega)]

theorem claim_C10_witness :
    ClientHandler.ReadCoils oracleC10 0 9 = (.panicked, [.read])
    ∧ ClientHandler.ReadDiscreteInputs oracleC10 0 9 = (.panicked, [.read]) :=
  ⟨claim_C10.1 oracleC10 0 9 1 [170] [.read] (by decide) (by decide) (by decide)
     (by decide) rfl,
   claim_C10.2 oracleC10 0 9 1 [170] [.read] (by decide) (by decide) (by decide)
     (by decide) rfl⟩

/-! ## C9: `ReadFIFOQueue` byte-count check rejects standard-layout frames -/

/-- Exchange oracle for C9: a standard-layout FIFO response with zero
FIFO entries (byte-count field 2, FIFO count 0, no value bytes). -/
def oracleC9 : Transceiver := fun _ => (.ok ⟨24, [0, 2, 0, 0]⟩, [])

/-- C9: `ReadFIFOQueue` returns values only when the leading big-endian
16-bit byte-count field equals the total payload length minus one;
consequently every response laid out per the Modbus standard (byte-count
field `2 + 2N`, FIFO count `N`, `2N` value bytes, total payload
`4 + 2N`) is rejected with a data-size-mismatch framing error. -/
theorem claim_C9 :
    (∀ (t : Transceiver) (address : Nat) (response : ProtocolDataUnit)
        (calls : List TransportCall) (values : List Nat),
      t ⟨FuncCodeReadFIFOQueue, dataBlock [address]⟩ = (.ok response, calls) →
      response.functionCode = FuncCodeReadFIFOQueue →
      ClientHandler.ReadFIFOQueue t address = (.ok values, calls) →
      bigEndianUint16 response.data = response.data.length - 1)
    ∧ (∀ (t : Transceiver) (address N : Nat) (vals : List Nat)
        (calls : List TransportCall),
      vals.length = 2 * N →
      2 + 2 * N < 65536 →
      t ⟨FuncCodeReadFIFOQueue, dataBlock [address]⟩
        = (.ok ⟨FuncCodeReadFIFOQueue, dataBlock [2 + 2 * N, N] ++ vals⟩, calls) →
      ClientHandler.ReadFIFOQueue t address
        = (.err (.dataSizeMismatch (3 + 2 * N) (2 + 2 * N)), calls)) := by
  constructor
  · intro t address response calls values hex hfc hok
    by_cases hne : response.data = []
    · simp only [ClientHandler.ReadFIFOQueue,
        transceive_empty t _ response calls hex hfc hne] at hok
      simp at hok
    · simp only [ClientHandler.ReadFIFOQueue,
        transceive_ok t _ response calls hex hfc hne] at hok
      by_cases h4 : response.data.length < 4
      · rw [if_pos h4] at hok
        simp at hok
      · rw [if_neg h4] at hok
        by_cases hcount : bigEndianUint16 response.data ≠ response.data.length - 1
        · rw [if_pos hcount] at hok
          simp at hok
        · push_neg at hcount
          exact hcount
  · intro t address N vals calls hv hb hex
    have hne : (⟨FuncCodeReadFIFOQueue, dataBlock [2 + 2 * N, N] ++ vals⟩
        : ProtocolDataUnit).data ≠ [] := by
      simp [dataBlock]
    simp only [ClientHandler.ReadFIFOQueue,
      transceive_ok t _ _ calls hex rfl hne]
    have hlen : ((⟨FuncCodeReadFIFOQueue, dataBlock [2 + 2 * N, N] ++ vals⟩
        : ProtocolDataUnit).data).length = 4 + 2 * N := by
      simp [dataBlock, hv]
      omega
    have hbe : bigEndianUint16 ((⟨FuncCodeReadFIFOQueue, dataBlock [2 + 2 * N, N] ++ vals⟩
        : ProtocolDataUnit).data) = 2 + 2 * N := by
      simp [dataBlock, bigEndianUint16]
      omega
    rw [if_neg (by rw [hlen]; omega), if_pos (by rw [hbe, hlen]; omega), hbe, hlen]
    have h31 : 4 + 2 * N - 1 = 3 + 2 * N := by omega
    rw [h31]

theorem claim_C9_witness :
    ClientHandler.ReadFIFOQueue oracleC9 5 = (.err (.dataSizeMismatch 3 2), []) :=
  claim_C9.2 oracleC9 5 0 [] [] (by decide) (by decide) rfl

/-! ## Structure of `bytesToWordArray` and the byte/word round-trip -/

theorem bytesToWordArray_single (a : Nat) : bytesToWordArray [a] = [a] := by
  simp [bytesToWordArray, List.range_succ]

theorem bytesToWordArray_cons_cons (a b : Nat) (t : List Nat) :
    bytesToWordArray (a :: b :: t) = (a * 256 + b) :: bytesToWordArray t := by
  simp only [bytesToWordArray]
  have hlen : (a :: b :: t).length = t.length + 2 := by simp
  rw [hlen]
  have hn : (t.length + 2 + 1) / 2 = (t.length + 1) / 2 + 1 := by omega
  rw [hn, List.range_succ_eq_map]
  simp only [List.map_cons, List.map_map]
  congr 1
  apply List.map_congr_left
  intro i hi
  simp only [Function.comp_apply, Nat.succ_eq_add_one]
  have h1 : (a :: b :: t).getD (2 * (i + 1)) 0 = t.getD (2 * i) 0 := by
    have he : 2 * (i + 1) = 2 * i + 1 + 1 := by omega
    rw [he, List.getD_cons_succ, List.getD_cons_succ]
  have h2 : (a :: b :: t).getD (2 * (i + 1) + 1) 0 = t.getD (2 * i + 1) 0 := by
    have he : 2 * (i + 1) + 1 = 2 * i + 1 + 1 + 1 := by omega
    rw [he, List.getD_cons_succ, List.getD_cons_succ]
  by_cases hc : 2 * i + 2 > t.length
  · rw [if_pos (by omega), if_pos hc, h1]
  · rw [if_neg (by omega), if_neg hc, h1, h2]

theorem wordsToByteArray_bytesToWordArray :
    ∀ l : List Nat, l.length % 2 = 0 → (∀ b ∈ l, b < 256) →
      wordsToByteArray (bytesToWordArray l) = l
  | [] => fun _ _ => rfl
  | [a] => fun h _ => by simp at h
  | a :: b :: t => fun h hb => by
      have hpar : t.length % 2 = 0 := by simp at h; omega
      have hbt : ∀ x ∈ t, x < 256 := fun x hx => hb x (by simp [hx])
      have ht := wordsToByteArray_bytesToWordArray t hpar hbt
      rw [bytesToWordArray_cons_cons]
      have hsh : wordsToByteArray ((a * 256 + b) :: bytesToWordArray t)
          = (a * 256 + b) / 256 % 256 :: (a * 256 + b) % 256
              :: wordsToByteArray (bytesToWordArray t) := by
        simp [wordsToByteArray]
      rw [hsh, ht]
      have ha : a < 256 := hb a (by simp)
      have hbb : b < 256 := hb b (by simp)
      have e1 : (a * 256 + b) / 256 % 256 = a := by omega
      have e2 : (a * 256 + b) % 256 = b := by omega
      rw [e1, e2]

/-! ## C7: `ReadString` over register blocks -/

/-- The spec's description of the read side of the text view: the
big-endian byte reinterpretation with only *trailing* zero bytes
stripped (a second definition following the spec's words, to be compared
with `filterNullChar` from the source). -/
def spec_stripTrailingZeros (a : List Nat) : List Nat :=
  (a.reverse.dropWhile (fun c => c == 0)).reverse

/-- Exchange oracle for the C7 counterexample: one register `0x0041`,
whose big-endian bytes are `[0, 65]` — a leading zero byte before a
non-zero byte. -/
def oracleC7 : Transceiver := fun _ => (.ok ⟨3, [2, 0, 65]⟩, [])

/-- C7 (amended): on a successful register-block read, the `ReadString`
views (read-only and read-write) return the registers reinterpreted as a
big-endian byte sequence with *all* zero bytes removed — trailing,
leading, and interior alike. -/
theorem claim_C7 :
    (∀ (t : Transceiver) (address count : Nat) (payload : List Nat)
        (calls : List TransportCall),
      1 ≤ count → count ≤ 125 →
      payload.length % 2 = 0 → (∀ b ∈ payload, b < 256) →
      t ⟨FuncCodeReadHoldingRegisters, dataBlock [address, count]⟩
        = (.ok ⟨FuncCodeReadHoldingRegisters, payload.length :: payload⟩, calls) →
      rwRegisters.ReadString t address count
        = (.ok (payload.filter (fun c => c != 0)), calls))
    ∧ (∀ (t : Transceiver) (address count : Nat) (payload : List Nat)
        (calls : List TransportCall),
      1 ≤ count → count ≤ 125 →
      payload.length % 2 = 0 → (∀ b ∈ payload, b < 256) →
      t ⟨FuncCodeReadInputRegisters, dataBlock [address, count]⟩
        = (.ok ⟨FuncCodeReadInputRegisters, payload.length :: payload⟩, calls) →
      roRegisters.ReadString t address count
        = (.ok (payload.filter (fun c => c != 0)), calls)) := by
  constructor
  · intro t address count payload calls hc1 hc2 hpar hby hex
    have hne : (⟨FuncCodeReadHoldingRegisters, payload.length :: payload⟩
        : ProtocolDataUnit).data ≠ [] := by simp
    have hread : ClientHandler.ReadHoldingRegisters t address count
        = (.ok (bytesToWordArray payload), calls) := by
      simp only [ClientHandler.ReadHoldingRegisters,
        transceive_ok t _ _ calls hex rfl hne]
      rw [if_neg (by omega), if_neg (by simp)]
    simp only [rwRegisters.ReadString, rwRegisters.Read, hread]
    rw [wordsToByteArray_bytesToWordArray payload hpar hby]
    rfl
  · intro t address count payload calls hc1 hc2 hpar hby hex
    have hne : (⟨FuncCodeReadInputRegisters, payload.length :: payload⟩
        : ProtocolDataUnit).data ≠ [] := by simp
    have hread : ClientHandler.ReadInputRegisters t address count
        = (.ok (bytesToWordArray payload), calls) := by
      simp only [ClientHandler.ReadInputRegisters,
        transceive_ok t _ _ calls hex rfl hne]
      rw [if_neg (by omega), if_neg (by simp)]
    simp only [roRegisters.ReadString, roRegisters.Read, hread]
    rw [wordsToByteArray_bytesToWordArray payload hpar hby]
    rfl

/-- Exchange oracle for the C7 witness: two registers `0x0041 0x4200`,
bytes `[0, 65, 66, 0]` with a leading and a trailing zero byte. -/
def oracleC7W : Transceiver := fun _ => (.ok ⟨3, [4, 0, 65, 66, 0]⟩, [])

theorem claim_C7_witness :
    (1 : Nat) ≤ 2 ∧ (2 : Nat) ≤ 125
    ∧ ([0, 65, 66, 0] : List Nat).length % 2 = 0
    ∧ (∀ b ∈ ([0, 65, 66, 0] : List Nat), b < 256)
    ∧ rwRegisters.ReadString oracleC7W 0 2 = (.ok [65, 66], []) :=
  ⟨by decide, by decide, by decide, by decide,
   claim_C7.1 oracleC7W 0 2 [0, 65, 66, 0] [] (by decide) (by decide) (by decide)
     (by decide) rfl⟩

/-- C7 counterexample: reading one register `0x0041` yields the bytes
`[0, 65]`; stripping only trailing zeros (the claim) keeps the leading
zero byte, but the code removes it as well and returns `[65]`. -/
theorem claim_C7_counterexample :
    rwRegisters.ReadString oracleC7 0 1 = (.ok [65], [])
    ∧ wordsToByteArray (bytesToWordArray [0, 65]) = [0, 65]
    ∧ spec_stripTrailingZeros [0, 65] = [0, 65]
    ∧ ([65] : List Nat) ≠ [0, 65] := by
  exact ⟨rfl, by decide, by decide, by decide⟩

/-! ## C8: `WriteString` word packing -/

/-- Exchange oracle for the C8 counterexample: echoes success only for
the word sequence the claim predicts for the one-byte string `[65]`
(namely `[0x4100]`), and fails for anything else. -/
def oracleC8 : Transceiver :=
  fun request =>
    if request.data = dataBlockSuffix (dataBlock [16640]) [0, 1] then
      (.ok ⟨16, [0, 0, 0, 1]⟩, [.write])
    else
      (.error (.external 7), [.write])

/-- C8 (amended): `rwRegisters.WriteString` packs the byte string into
16-bit words pairing consecutive bytes big-endian, and when the length is
odd, the final word is the last byte *widened into the low byte* (word
value equal to the byte), not shifted into the high byte. -/
theorem claim_C8 :
    (∀ (a b : Nat) (t : List Nat),
      bytesToWordArray (a :: b :: t) = (a * 256 + b) :: bytesToWordArray t)
    ∧ (∀ a : Nat, bytesToWordArray [a] = [a])
    ∧ bytesToWordArray [] = []
    ∧ (∀ (tr : Transceiver) (address count : Nat) (s : List Nat),
      rwRegisters.WriteString tr address count s
        = rwRegisters.Write tr address count (bytesToWordArray s)) :=
  ⟨bytesToWordArray_cons_cons, bytesToWordArray_single, rfl, fun _ _ _ _ => rfl⟩

/-- C8 counterexample: for the odd-length string `[65]` (`"A"`), the code
packs the word `65` (last byte in the low byte), not `16640` (`65 << 8`)
as the claim states; an exchange expecting the claim's packing is never
reached with the matching request. -/
theorem claim_C8_counterexample :
    bytesToWordArray [65] = [65]
    ∧ (65 : Nat) ≠ 16640
    ∧ rwRegisters.WriteString oracleC8 0 5 [65] = (.err (.external 7), [.write]) := by
  exact ⟨by decide, by decide, rfl⟩

end Modbus
